import Mathlib

/-!
Shallow embedding of the `lila` single-node object store (Rust sources under
`src/`): the content-addressed filesystem blob store (`storage/filesystem.rs`),
the SQLite metadata catalog (`storage/metadata.rs`) and the object handlers
(`handlers/objects.rs`).

Modelling conventions:
* bytes are `Nat` values (< 256 where it matters); byte buffers are `List Nat`;
* the filesystem is a map from path strings to optional file contents;
* the SQLite table `objects` is a list of rows; queries are modelled by
  filtering/sorting that list, with SQL `LIKE` given its SQLite semantics
  (`%`/`_` wildcards, ASCII-case-insensitive comparison, BINARY collation for
  `ORDER BY` and `=`);
* async I/O is sequentialised; fallible database statements are given an
  explicit success/failure oracle where a claim depends on the failure path;
* SHA-256 (the `sha2` crate) is implemented directly (FIPS 180-4).
-/

namespace Lila

/-! ## SHA-256 (sha2 crate), over byte lists -/

/-- 32-bit truncation. -/
def m32 (x : Nat) : Nat := x % 4294967296

/-- Right rotation of a 32-bit word. -/
def rotr (n x : Nat) : Nat := m32 ((x >>> n) ||| (x <<< (32 - n)))

def bigS0 (x : Nat) : Nat := (rotr 2 x) ^^^ (rotr 13 x) ^^^ (rotr 22 x)
def bigS1 (x : Nat) : Nat := (rotr 6 x) ^^^ (rotr 11 x) ^^^ (rotr 25 x)
def smallS0 (x : Nat) : Nat := (rotr 7 x) ^^^ (rotr 18 x) ^^^ (x >>> 3)
def smallS1 (x : Nat) : Nat := (rotr 17 x) ^^^ (rotr 19 x) ^^^ (x >>> 10)

def shaCh (x y z : Nat) : Nat := (x &&& y) ^^^ ((x ^^^ 4294967295) &&& z)
def shaMaj (x y z : Nat) : Nat := (x &&& y) ^^^ (x &&& z) ^^^ (y &&& z)

def shaK : List Nat :=
  [1116352408, 1899447441, 3049323471, 3921009573, 961987163, 1508970993,
   2453635748, 2870763221, 3624381080, 310598401, 607225278, 1426881987,
   1925078388, 2162078206, 2614888103, 3248222580, 3835390401, 4022224774,
   264347078, 604807628, 770255983, 1249150122, 1555081692, 1996064986,
   2554220882, 2821834349, 2952996808, 3210313671, 3336571891, 3584528711,
   113926993, 338241895, 666307205, 773529912, 1294757372, 1396182291,
   1695183700, 1986661051, 2177026350, 2456956037, 2730485921, 2820302411,
   3259730800, 3345764771, 3516065817, 3600352804, 4094571909, 275423344,
   430227734, 506948616, 659060556, 883997877, 958139571, 1322822218,
   1537002063, 1747873779, 1955562222, 2024104815, 2227730452, 2361852424,
   2428436474, 2756734187, 3204031479, 3329325298]

def shaH0 : List Nat :=
  [1779033703, 3144134277, 1013904242, 2773480762,
   1359893119, 2600822924, 528734635, 1541459225]

/-- Big-endian bytes of a 64-bit value. -/
def u64be (n : Nat) : List Nat :=
  [m32 (n >>> 56) % 256, (n >>> 48) % 256, (n >>> 40) % 256, (n >>> 32) % 256,
   (n >>> 24) % 256, (n >>> 16) % 256, (n >>> 8) % 256, n % 256]

/-- SHA-256 padding: append 0x80, zero bytes to 56 mod 64, then the bit length. -/
def shaPad (msg : List Nat) : List Nat :=
  let len := msg.length
  let zeros := (119 - (len % 64)) % 64
  msg ++ (0x80 :: List.replicate zeros 0) ++ u64be (8 * len)

/-- Split a byte list into chunks of 64 (structural recursion on a fuel bound
so the kernel can evaluate it). -/
def chunk64Go : Nat → List Nat → List (List Nat)
  | 0, _ => []
  | _, [] => []
  | fuel + 1, a :: l => (a :: l).take 64 :: chunk64Go fuel ((a :: l).drop 64)

def chunk64 (l : List Nat) : List (List Nat) := chunk64Go l.length l

/-- Combine 4 bytes big-endian into a 32-bit word. -/
def words32 : List Nat → List Nat
  | b0 :: b1 :: b2 :: b3 :: rest => (((b0 * 256 + b1) * 256 + b2) * 256 + b3) :: words32 rest
  | _ => []

/-- Message-schedule extension from 16 to 64 words (stored reversed). -/
def shaExtend : Nat → List Nat → List Nat
  | 0, wrev => wrev
  | n + 1, wrev =>
    let w2 := wrev.getD 1 0
    let w7 := wrev.getD 6 0
    let w15 := wrev.getD 14 0
    let w16 := wrev.getD 15 0
    shaExtend n (m32 (w16 + smallS0 w15 + w7 + smallS1 w2) :: wrev)

/-- One round of the SHA-256 compression function. -/
def shaRound (st : List Nat) (kw : Nat × Nat) : List Nat :=
  match st with
  | [a, b, c, d, e, f, g, h] =>
    let t1 := m32 (h + bigS1 e + shaCh e f g + kw.1 + kw.2)
    let t2 := m32 (bigS0 a + shaMaj a b c)
    [m32 (t1 + t2), a, b, c, m32 (d + t1), e, f, g]
  | st => st

/-- Process one 64-byte block. -/
def shaBlock (h : List Nat) (block : List Nat) : List Nat :=
  let w := (shaExtend 48 (words32 block).reverse).reverse
  let st := (shaK.zip w).foldl shaRound h
  (h.zip st).map fun p => m32 (p.1 + p.2)

/-- SHA-256 digest of a byte list, as 32 bytes. -/
def sha256 (msg : List Nat) : List Nat :=
  let hfin := (chunk64 (shaPad msg)).foldl shaBlock shaH0
  hfin.flatMap fun w => [(w >>> 24) % 256, (w >>> 16) % 256, (w >>> 8) % 256, w % 256]

def hexDigit (n : Nat) : Char := Char.ofNat (if n < 10 then 48 + n else 87 + n)

/-- Lowercase hex encoding of a byte list (the `hex` crate's `encode`). -/
def hexEncode (bytes : List Nat) : String :=
  String.mk (bytes.flatMap fun b => [hexDigit (b / 16), hexDigit (b % 16)])

def sha256hex (msg : List Nat) : String := hexEncode (sha256 msg)

/-- UTF-8 encoding of one character (code point). -/
def utf8Char (n : Nat) : List Nat :=
  if n < 0x80 then [n]
  else if n < 0x800 then [0xc0 + n / 64, 0x80 + n % 64]
  else if n < 0x10000 then [0xe0 + n / 4096, 0x80 + (n / 64) % 64, 0x80 + n % 64]
  else [0xf0 + n / 262144, 0x80 + (n / 4096) % 64, 0x80 + (n / 64) % 64, 0x80 + n % 64]

/-- UTF-8 bytes of a string (Rust `str::as_bytes`). -/
def utf8Bytes (s : String) : List Nat := s.data.flatMap fun c => utf8Char c.toNat

set_option maxRecDepth 16384

/-! ## Error type (`error.rs`) -/

inductive AppError where
  | Database (msg : String)
  | Io (msg : String)
  | NotFound (key : String)
  | Unauthorized
  | PayloadTooLarge (limit : Nat)
  | Internal
deriving DecidableEq, Repr

deriving instance DecidableEq for Except

/-! ## Data model (`models.rs`)

`created_at` (`DateTime<Utc>`) is modelled as an abstract `Nat` timestamp; the
RFC 3339 round trip through the database is treated as the identity. -/

structure ObjectMetadata where
  id : String
  key : String
  size : Int
  content_type : String
  etag : String
  created_at : Nat
deriving DecidableEq, Repr

/-! ## Filesystem model

A map from path strings to optional file contents (byte lists). -/

abbrev Fs : Type := String → Option (List Nat)

def Fs.empty : Fs := fun _ => none

def Fs.write (fs : Fs) (p : String) (data : List Nat) : Fs :=
  fun q => if q = p then some data else fs q

def Fs.remove (fs : Fs) (p : String) : Fs :=
  fun q => if q = p then none else fs q

/-! ## Blob store (`storage/filesystem.rs`) -/

structure FileStorage where
  base_path : String

/-- `FileStorage::get_object_path`: SHA-256 the key, first two hex chars pick
the fan-out subdirectory, full digest is the filename. -/
def FileStorage.get_object_path (st : FileStorage) (key : String) : String :=
  let hash := sha256hex (utf8Bytes key)
  st.base_path ++ "/" ++ String.mk (hash.data.take 2) ++ "/" ++ hash

/-- One item of the request body stream: a chunk of bytes, or a stream error
(`write_stream` maps the latter to `AppError::Io`). -/
inductive StreamItem where
  | ok (data : List Nat)
  | err (msg : String)
deriving DecidableEq, Repr

/-- The chunk loop of `FileStorage::write_stream`: state is the hasher input
so far (`hacc`), the running `total_size`, and the filesystem. The size check
`total_size + chunk.len() > max_size` runs before the chunk is persisted; on
violation the partial file is removed and `PayloadTooLarge(max_size)` is
returned. A stream error propagates without cleanup. -/
def writeStreamGo (path : String) (max_size : Nat) :
    List StreamItem → List Nat → Nat → Fs → Except AppError (String × Int) × Fs
  | [], hacc, total, fs => (Except.ok (sha256hex hacc, (total : Int)), fs)
  | StreamItem.err e :: _, _, _, fs => (Except.error (AppError.Io e), fs)
  | StreamItem.ok c :: rest, hacc, total, fs =>
    if total + c.length > max_size then
      (Except.error (AppError.PayloadTooLarge max_size), fs.remove path)
    else
      writeStreamGo path max_size rest (hacc ++ c) (total + c.length)
        (fs.write path ((fs path).getD [] ++ c))

/-- `FileStorage::write_stream`: `File::create` truncates the destination to
empty, then the chunk loop runs; on success the hex digest and the total byte
count are returned. -/
def FileStorage.write_stream (st : FileStorage) (fs : Fs) (key : String)
    (stream : List StreamItem) (max_size : Nat) :
    Except AppError (String × Int) × Fs :=
  let path := st.get_object_path key
  writeStreamGo path max_size stream [] 0 (fs.write path [])

/-- `FileStorage::open`: NotFound when the file is absent. -/
def FileStorage.open (st : FileStorage) (fs : Fs) (key : String) :
    Except AppError (List Nat) :=
  match fs (st.get_object_path key) with
  | some data => Except.ok data
  | none => Except.error (AppError.NotFound key)

/-- `FileStorage::delete`: `remove_file`, NotFound when the file is absent. -/
def FileStorage.delete (st : FileStorage) (fs : Fs) (key : String) :
    Except AppError Unit × Fs :=
  match fs (st.get_object_path key) with
  | some _ => (Except.ok (), fs.remove (st.get_object_path key))
  | none => (Except.error (AppError.NotFound key), fs)

/-! ## SQLite `LIKE`

The catalog builds patterns by appending `%` to a caller-supplied string and
matches with SQL `LIKE` (no ESCAPE clause). SQLite semantics: `%` matches any
sequence, `_` matches exactly one character, and other characters compare
ASCII-case-insensitively. Implemented with a fuel argument (structural
recursion, so the kernel can evaluate it); `p.length + s.length + 1` fuel
always suffices. -/

def asciiLower (c : Char) : Char :=
  if 65 ≤ c.toNat ∧ c.toNat ≤ 90 then Char.ofNat (c.toNat + 32) else c

def likeMatchGo : Nat → List Char → List Char → Bool
  | 0, _, _ => false
  | _ + 1, [], s => s.isEmpty
  | fuel + 1, p :: ps, s =>
    if p = '%' then
      likeMatchGo fuel ps s ||
        (match s with
         | [] => false
         | _ :: cs => likeMatchGo fuel (p :: ps) cs)
    else
      match s with
      | [] => false
      | c :: cs =>
        if p = '_' then likeMatchGo fuel ps cs
        else asciiLower p == asciiLower c && likeMatchGo fuel ps cs

def sqlLike (pattern s : String) : Bool :=
  likeMatchGo (pattern.length + s.length + 1) pattern.data s.data

/-! ## Metadata catalog (`storage/metadata.rs`)

The `objects` table is a list of rows; the `UNIQUE` constraint on `key` is an
invariant of states reachable through `insert`. `ORDER BY key` under SQLite's
BINARY collation is lexicographic comparison of UTF-8 bytes, which coincides
with Lean's code-point order on `String`. -/

abbrev Db : Type := List ObjectMetadata

/-- `MetadataStore::insert`: `INSERT .. ON CONFLICT(key) DO UPDATE SET size,
content_type, etag, created_at` — on conflict the existing row's `id` is NOT
updated. -/
def dbInsert (db : Db) (m : ObjectMetadata) : Db :=
  if db.any fun r => r.key == m.key then
    db.map fun r =>
      if r.key == m.key then
        { r with size := m.size, content_type := m.content_type,
                 etag := m.etag, created_at := m.created_at }
      else r
  else db ++ [m]

/-- `MetadataStore::get`: `SELECT .. WHERE key = ?` (point lookup). -/
def dbGet (db : Db) (key : String) : Option ObjectMetadata :=
  db.find? fun r => r.key == key

/-- Lexicographic comparison of character lists by code point: the order
SQLite's BINARY collation induces on (valid UTF-8) TEXT values, since memcmp
on UTF-8 bytes coincides with code-point order. -/
def charsLe : List Char → List Char → Bool
  | [], _ => true
  | _ :: _, [] => false
  | a :: as, b :: bs =>
    (a.toNat < b.toNat) || ((a.toNat == b.toNat) && charsLe as bs)

theorem charsLe_total : ∀ a b, charsLe a b = true ∨ charsLe b a = true := by
  intro a
  induction a with
  | nil => intro b; left; rfl
  | cons x xs ih =>
    intro b
    cases b with
    | nil => right; rfl
    | cons y ys =>
      rcases Nat.lt_trichotomy x.toNat y.toNat with h | h | h
      · left; simp [charsLe, h]
      · rcases ih ys with h2 | h2
        · left; simp [charsLe, h, h2]
        · right; simp [charsLe, h.symm, h2]
      · right; simp [charsLe, h]

theorem charsLe_trans : ∀ a b c, charsLe a b = true → charsLe b c = true →
    charsLe a c = true := by
  intro a
  induction a with
  | nil => intro b c _ _; rfl
  | cons x xs ih =>
    intro b c hab hbc
    cases b with
    | nil => simp [charsLe] at hab
    | cons y ys =>
      cases c with
      | nil => simp [charsLe] at hbc
      | cons z zs =>
        simp only [charsLe, Bool.or_eq_true, Bool.and_eq_true, decide_eq_true_eq,
          beq_iff_eq] at hab hbc ⊢
        rcases hab with h1 | ⟨h1, h1r⟩ <;> rcases hbc with h2 | ⟨h2, h2r⟩
        · exact Or.inl (Nat.lt_trans h1 h2)
        · exact Or.inl (h2 ▸ h1)
        · exact Or.inl (h1 ▸ h2)
        · exact Or.inr ⟨h1.trans h2, ih ys zs h1r h2r⟩

/-- Row comparison used to model `ORDER BY key` (BINARY collation). -/
def rowLe (a b : ObjectMetadata) : Prop := charsLe a.key.data b.key.data = true

instance : DecidableRel rowLe :=
  fun a b => inferInstanceAs (Decidable (charsLe a.key.data b.key.data = true))

instance : IsTotal ObjectMetadata rowLe := ⟨fun a b => charsLe_total a.key.data b.key.data⟩

instance : IsTrans ObjectMetadata rowLe :=
  ⟨fun _ _ _ h1 h2 => charsLe_trans _ _ _ h1 h2⟩

/-- The same order on plain strings (used for the sorted folder names). -/
def strLe (a b : String) : Prop := charsLe a.data b.data = true

instance : DecidableRel strLe :=
  fun a b => inferInstanceAs (Decidable (charsLe a.data b.data = true))

instance : IsTotal String strLe := ⟨fun a b => charsLe_total a.data b.data⟩

instance : IsTrans String strLe := ⟨fun _ _ _ h1 h2 => charsLe_trans _ _ _ h1 h2⟩

/-- `MetadataStore::list`: `WHERE key LIKE pfx || '%' ORDER BY key LIMIT ?`,
limit defaulting to 1000. A negative SQLite `LIMIT` means "no limit". -/
def dbList (db : Db) (pfx : Option String) (limit : Option Int) : Db :=
  let rows :=
    match pfx with
    | some p => db.filter fun (r : ObjectMetadata) => sqlLike (p ++ "%") r.key
    | none => db
  let sorted := rows.insertionSort rowLe
  let lim := limit.getD 1000
  if lim < 0 then sorted else sorted.take lim.toNat

/-- `MetadataStore::delete`: `DELETE .. WHERE key = ?`; returns whether
`rows_affected > 0`, and the remaining rows. -/
def dbDelete (db : Db) (key : String) : Bool × Db :=
  (db.any (fun r => r.key == key), db.filter fun r => !(r.key == key))

/-- `MetadataStore::delete_by_prefix`: `DELETE .. WHERE key LIKE pfx || '%'`;
returns `rows_affected` as i64, and the remaining rows. -/
def dbDeleteByPfx (db : Db) (pfx : String) : Int × Db :=
  let pattern := pfx ++ "%"
  (((db.countP fun (r : ObjectMetadata) => sqlLike pattern r.key = true) : Int),
    db.filter fun (r : ObjectMetadata) => !(sqlLike pattern r.key))

/-! ## Object handlers (`handlers/objects.rs`)

`AppState` carries the catalog rows, the filesystem and the blob-store handle.
Nondeterministic inputs of a request are explicit parameters: the freshly
generated `Uuid` (`newId`), the `Utc::now()` timestamp (`now`), and — for the
one claim that depends on the database failing — a success/failure oracle
`dbOk` for the catalog insert statement. -/

structure AppState where
  db : Db
  fs : Fs
  storage : FileStorage
  max_upload_size : Nat

/-- `put_object`: default the content type, convert the cap from MB to bytes,
stream into the blob store, then upsert the catalog record and return it.
A write error surfaces as-is with no catalog mutation; a failing insert
(`dbOk = false`) surfaces as a database error after the blob write. -/
def put_object (st : AppState) (key : String) (contentTypeHeader : Option String)
    (stream : List StreamItem) (newId : String) (now : Nat) (dbOk : Bool) :
    Except AppError ObjectMetadata × AppState :=
  let content_type := contentTypeHeader.getD "application/octet-stream"
  let max_size := st.max_upload_size * 1024 * 1024
  let ws := st.storage.write_stream st.fs key stream max_size
  match ws.1 with
  | Except.error e => (Except.error e, { st with fs := ws.2 })
  | Except.ok es =>
    let metadata : ObjectMetadata :=
      { id := newId, key := key, size := es.2, content_type := content_type,
        etag := es.1, created_at := now }
    if dbOk then
      (Except.ok metadata, { st with fs := ws.2, db := dbInsert st.db metadata })
    else
      (Except.error (AppError.Database "insert failed"), { st with fs := ws.2 })

/-- The response assembled by `get_object`: the three headers plus the
streamed body. `content-length` is `metadata.size.to_string()`. -/
structure GetResponse where
  content_type : String
  etag : String
  content_length : String
  body : List Nat
deriving DecidableEq, Repr

/-- `get_object`: catalog lookup first (absence → NotFound, the blob store is
not consulted), then open and stream the blob with the record's headers. -/
def get_object (st : AppState) (key : String) : Except AppError GetResponse :=
  match dbGet st.db key with
  | none => Except.error (AppError.NotFound key)
  | some metadata =>
    match st.storage.open st.fs key with
    | Except.error e => Except.error e
    | Except.ok file =>
      Except.ok { content_type := metadata.content_type, etag := metadata.etag,
                  content_length := toString metadata.size, body := file }

/-- `get_object_metadata` (HEAD): catalog lookup only. -/
def get_object_metadata (st : AppState) (key : String) :
    Except AppError ObjectMetadata :=
  match dbGet st.db key with
  | none => Except.error (AppError.NotFound key)
  | some metadata => Except.ok metadata

/-- Rust `str::strip_prefix` (byte slicing expressed on the character list —
identical segments, since slicing happens at the boundary of a full prefix). -/
def stripPfx (pfx s : String) : Option String :=
  if pfx.data.isPrefixOf s.data then some (String.mk (s.data.drop pfx.data.length))
  else none

/-- Rust `str::find` for a substring needle: index of the first occurrence
(in characters; the occurrence and the text before it are the same segments
the byte index of the source selects). `find("")` is `some 0`. -/
def findSubAux (needle : List Char) : List Char → Option Nat
  | [] => if needle.isEmpty then some 0 else none
  | c :: cs =>
    if needle.isPrefixOf (c :: cs) then some 0
    else (findSubAux needle cs).map (· + 1)

def strFind (hay needle : String) : Option Nat := findSubAux needle.data hay.data

structure ListObjectsResponse where
  objects : List ObjectMetadata
  total : Nat
  prefixes : List String
deriving DecidableEq, Repr

/-- The body of the `for obj in objects` loop of `list_objects`: leaves are
pushed onto `filtered_objects`, synthesized folder names are inserted into the
`HashSet`. The set is modelled as the list of names in encounter order; its
unspecified iteration order is irrelevant because the result is sorted. -/
def listStep (pfx delimiter : String) (acc : List String × List ObjectMetadata)
    (obj : ObjectMetadata) : List String × List ObjectMetadata :=
  match stripPfx pfx obj.key with
  | some rest =>
    match strFind rest delimiter with
    | some idx => (acc.1 ++ [pfx ++ String.mk (rest.data.take idx) ++ delimiter], acc.2)
    | none => (acc.1, acc.2 ++ [obj])
  | none => acc

/-- `HashSet<String>` collected into a `Vec` and sorted: a sorted list of the
distinct elements. -/
def sortedDedup (l : List String) : List String :=
  (l.dedup).insertionSort strLe

/-- `list_objects`: fetch candidates with `MetadataStore::list`, default the
delimiter to "/" and the prefix to "", then split candidates into leaf objects
and synthesized folder names. -/
def list_objects (st : AppState) (pfx : Option String) (limit : Option Int)
    (delimiter? : Option String) : ListObjectsResponse :=
  let objects := dbList st.db pfx limit
  let delimiter := delimiter?.getD "/"
  let p := pfx.getD ""
  let acc := objects.foldl (listStep p delimiter) ([], [])
  { objects := acc.2, total := acc.2.length, prefixes := sortedDedup acc.1 }

/-- `delete_object`: blob delete first — any error there (including NotFound)
propagates via `?` — then the catalog row; a missing catalog row is reported
as NotFound. -/
def delete_object (st : AppState) (key : String) :
    Except AppError Unit × AppState :=
  let r := st.storage.delete st.fs key
  match r.1 with
  | Except.error e => (Except.error e, { st with fs := r.2 })
  | Except.ok _ =>
    let deleted := dbDelete st.db key
    if !deleted.1 then
      (Except.error (AppError.NotFound key), { st with fs := r.2, db := deleted.2 })
    else
      (Except.ok (), { st with fs := r.2, db := deleted.2 })

/-- The `for obj in &objects { state.storage.delete(&obj.key).await? }` loop of
`delete_folder`: stops at the first error, keeping the deletions already
performed. -/
def deleteBlobsLoop (storage : FileStorage) :
    List ObjectMetadata → Fs → Except AppError Unit × Fs
  | [], fs => (Except.ok (), fs)
  | obj :: rest, fs =>
    let r := storage.delete fs obj.key
    match r.1 with
    | Except.error e => (Except.error e, r.2)
    | Except.ok _ => deleteBlobsLoop storage rest r.2

/-- The prefix normalization at the top of `delete_folder`:
`if !prefix.ends_with('/') then prefix + "/" else prefix`. -/
def normSlash (s : String) : String :=
  if !(s.data.getLast? == some '/') then s ++ "/" else s

/-- `delete_folder`: normalize the prefix to end in '/', enumerate matching
records via `MetadataStore::list` (with its default limit), delete each blob
(errors propagate), then bulk-delete the rows and return the count. -/
def delete_folder (st : AppState) (rawPfx : String) :
    Except AppError Int × AppState :=
  let pfx := normSlash rawPfx
  let objects := dbList st.db (some pfx) none
  let r := deleteBlobsLoop st.storage objects st.fs
  match r.1 with
  | Except.error e => (Except.error e, { st with fs := r.2 })
  | Except.ok _ =>
    let deleted := dbDeleteByPfx st.db pfx
    (Except.ok deleted.1, { st with fs := r.2, db := deleted.2 })

/-! ## Auxiliary notions for the statements -/

/-- Total number of payload bytes carried by a stream (ok chunks only). -/
def streamLen : List StreamItem → Nat
  | [] => 0
  | StreamItem.ok d :: rest => d.length + streamLen rest
  | StreamItem.err _ :: rest => streamLen rest

/-- Concatenation of the payload bytes of a stream. -/
def streamBytes : List StreamItem → List Nat
  | [] => []
  | StreamItem.ok d :: rest => d ++ streamBytes rest
  | StreamItem.err _ :: rest => streamBytes rest

/-- A stream all of whose items are data chunks (no transport errors). -/
def allOk (stream : List StreamItem) : Prop :=
  ∀ it ∈ stream, ∃ d, it = StreamItem.ok d

/-! ## Filesystem lemmas -/

theorem Fs.write_self (fs : Fs) (p : String) (data : List Nat) :
    fs.write p data p = some data := by
  simp [Fs.write]

theorem Fs.remove_self (fs : Fs) (p : String) : fs.remove p p = none := by
  simp [Fs.remove]

theorem Fs.write_write (fs : Fs) (p : String) (a b : List Nat) :
    (fs.write p a).write p b = fs.write p b := by
  funext q; simp only [Fs.write]; split <;> rfl

theorem Fs.write_remove (fs : Fs) (p : String) (a : List Nat) :
    (fs.write p a).remove p = fs.remove p := by
  funext q; simp only [Fs.write, Fs.remove]; split <;> rfl

/-! ## `write_stream` lemmas -/

/-- Invariant of the chunk loop: if the file at `path` holds exactly `total`
bytes on entry and `total ≤ max_size`, then at no point does the file at
`path` hold more than `max_size` bytes — in particular not on exit. -/
theorem writeStreamGo_size_bound (path : String) (max_size : Nat) :
    ∀ (stream : List StreamItem) (hacc l : List Nat) (total : Nat) (fs : Fs),
      fs path = some l → l.length = total → total ≤ max_size →
      ∀ content, (writeStreamGo path max_size stream hacc total fs).2 path = some content →
        content.length ≤ max_size := by
  intro stream
  induction stream with
  | nil =>
    intro hacc l total fs hfs hlen hle content hout
    simp only [writeStreamGo] at hout
    rw [hfs] at hout
    cases hout
    omega
  | cons it rest ih =>
    intro hacc l total fs hfs hlen hle content hout
    cases it with
    | err e =>
      simp only [writeStreamGo] at hout
      rw [hfs] at hout
      cases hout
      omega
    | ok c =>
      simp only [writeStreamGo] at hout
      by_cases hover : total + c.length > max_size
      · rw [if_pos hover] at hout
        simp [Fs.remove] at hout
      · rw [if_neg hover] at hout
        refine ih (hacc ++ c) (l ++ c) (total + c.length) _ ?_ ?_ ?_ content hout
        · simp [Fs.write_self, hfs]
        · simp [hlen]
        · omega

/-- The chunk loop on an error-free stream whose total size exceeds the cap
always aborts with `PayloadTooLarge` and leaves no file at `path`. -/
theorem writeStreamGo_overflow (path : String) (max_size : Nat) :
    ∀ (stream : List StreamItem) (hacc : List Nat) (total : Nat) (fs : Fs),
      allOk stream → total + streamLen stream > max_size → total ≤ max_size →
      (writeStreamGo path max_size stream hacc total fs).1
          = Except.error (AppError.PayloadTooLarge max_size)
        ∧ (writeStreamGo path max_size stream hacc total fs).2 path = none := by
  intro stream
  induction stream with
  | nil =>
    intro hacc total fs _ hover hle
    simp only [streamLen] at hover
    omega
  | cons it rest ih =>
    intro hacc total fs hok hover hle
    cases it with
    | err e => exact absurd (hok (StreamItem.err e) (List.mem_cons_self _ _)) (by simp)
    | ok c =>
      simp only [writeStreamGo]
      by_cases hcap : total + c.length > max_size
      · rw [if_pos hcap]
        exact ⟨rfl, Fs.remove_self _ _⟩
      · rw [if_neg hcap]
        refine ih (hacc ++ c) (total + c.length) _ ?_ ?_ ?_
        · exact fun x hx => hok x (List.mem_cons_of_mem _ hx)
        · simp only [streamLen] at hover; omega
        · omega

/-- The chunk loop on an error-free stream that fits in the cap succeeds,
returning the digest of everything hashed and the total count, with the file
at `path` extended by exactly the stream's bytes. -/
theorem writeStreamGo_success (path : String) (max_size : Nat) :
    ∀ (stream : List StreamItem) (hacc l : List Nat) (total : Nat) (fs : Fs),
      allOk stream → fs path = some l → l.length = total →
      total + streamLen stream ≤ max_size →
      writeStreamGo path max_size stream hacc total fs
        = (Except.ok (sha256hex (hacc ++ streamBytes stream),
              ((total + streamLen stream : Nat) : Int)),
           fs.write path (l ++ streamBytes stream)) := by
  intro stream
  induction stream with
  | nil =>
    intro hacc l total fs _ hfs hlen hle
    simp only [writeStreamGo, streamBytes, streamLen, List.append_nil, Nat.add_zero]
    refine Prod.ext rfl ?_
    funext q
    simp only [Fs.write]
    split
    · next h => rw [h, hfs]
    · rfl
  | cons it rest ih =>
    intro hacc l total fs hok hfs hlen hle
    cases it with
    | err e => exact absurd (hok (StreamItem.err e) (List.mem_cons_self _ _)) (by simp)
    | ok c =>
      simp only [streamLen] at hle
      simp only [writeStreamGo, streamBytes, streamLen]
      rw [if_neg (by omega), hfs]
      simp only [Option.getD_some]
      rw [ih (hacc ++ c) (l ++ c) (total + c.length) _
            (fun x hx => hok x (List.mem_cons_of_mem _ hx)) (Fs.write_self _ _ _)
            (by simp [hlen]) (by omega)]
      rw [Fs.write_write]
      simp [List.append_assoc, Nat.add_assoc]

/-- If the chunk loop reports `PayloadTooLarge`, the file at `path` is gone. -/
theorem writeStreamGo_payload_removed (path : String) (max_size : Nat) :
    ∀ (stream : List StreamItem) (hacc : List Nat) (total : Nat) (fs : Fs) (lim : Nat),
      (writeStreamGo path max_size stream hacc total fs).1
          = Except.error (AppError.PayloadTooLarge lim) →
      (writeStreamGo path max_size stream hacc total fs).2 path = none := by
  intro stream
  induction stream with
  | nil => intro hacc total fs lim h; simp [writeStreamGo] at h
  | cons it rest ih =>
    intro hacc total fs lim h
    cases it with
    | err e => simp [writeStreamGo] at h
    | ok c =>
      simp only [writeStreamGo] at h ⊢
      by_cases hcap : total + c.length > max_size
      · rw [if_pos hcap]
        exact Fs.remove_self _ _
      · rw [if_neg hcap] at h ⊢
        exact ih _ _ _ lim h

/-- `write_stream` on an error-free stream that fits under the cap: the
returned etag is the digest of the streamed bytes, the returned size is their
count, and the file at the key's path holds exactly those bytes. -/
theorem write_stream_success (stor : FileStorage) (fs : Fs) (key : String)
    (stream : List StreamItem) (max_size : Nat)
    (hok : allOk stream) (hfit : streamLen stream ≤ max_size) :
    stor.write_stream fs key stream max_size
      = (Except.ok (sha256hex (streamBytes stream), (streamLen stream : Int)),
         fs.write (stor.get_object_path key) (streamBytes stream)) := by
  unfold FileStorage.write_stream
  rw [writeStreamGo_success _ _ stream [] [] 0 _ hok (Fs.write_self _ _ _) rfl
        (by omega)]
  rw [Fs.write_write]
  simp

/-- `write_stream` level restatement of `writeStreamGo_payload_removed`. -/
theorem write_stream_payload_removed (stor : FileStorage) (fs : Fs) (key : String)
    (stream : List StreamItem) (max_size lim : Nat)
    (h : (stor.write_stream fs key stream max_size).1
          = Except.error (AppError.PayloadTooLarge lim)) :
    (stor.write_stream fs key stream max_size).2 (stor.get_object_path key) = none := by
  unfold FileStorage.write_stream at h ⊢
  exact writeStreamGo_payload_removed _ _ stream [] 0 _ lim h

/-! ## Handler characterization lemmas

`put_object` (and, below, the delete handlers) branch on the outcome of a
storage call; these lemmas give each branch as an equation so later proofs
never fight the compiled pattern matcher. -/

theorem put_object_write_err (st : AppState) (key : String) (cth : Option String)
    (stream : List StreamItem) (newId : String) (now : Nat) (dbOk : Bool)
    (e : AppError) (fs2 : Fs)
    (h : st.storage.write_stream st.fs key stream (st.max_upload_size * 1024 * 1024)
          = (Except.error e, fs2)) :
    put_object st key cth stream newId now dbOk
      = (Except.error e, { st with fs := fs2 }) := by
  unfold put_object
  simp only []
  rw [h]

theorem put_object_write_ok (st : AppState) (key : String) (cth : Option String)
    (stream : List StreamItem) (newId : String) (now : Nat) (dbOk : Bool)
    (etag : String) (size : Int) (fs2 : Fs)
    (h : st.storage.write_stream st.fs key stream (st.max_upload_size * 1024 * 1024)
          = (Except.ok (etag, size), fs2)) :
    put_object st key cth stream newId now dbOk
      = (if dbOk then
           (Except.ok { id := newId, key := key, size := size,
                        content_type := cth.getD "application/octet-stream",
                        etag := etag, created_at := now },
            { st with fs := fs2,
                      db := dbInsert st.db { id := newId, key := key, size := size,
                                             content_type := cth.getD "application/octet-stream",
                                             etag := etag, created_at := now } })
         else
           (Except.error (AppError.Database "insert failed"), { st with fs := fs2 })) := by
  unfold put_object
  simp only []
  rw [h]

/-! ## Concrete fixtures used by counterexamples and witnesses -/

def stor0 : FileStorage := { base_path := "./data/objects" }

def prevRec : ObjectMetadata :=
  { id := "prev", key := "k", size := 1, content_type := "text/plain",
    etag := "aa", created_at := 0 }

def fsPrev : Fs := Fs.write Fs.empty (stor0.get_object_path "k") [42]

def stPrev : AppState :=
  { db := [prevRec], fs := fsPrev, storage := stor0, max_upload_size := 0 }

/-! ## C1 -/

/-- C1: `write_stream` enforces the size cap as a hard ceiling — at every
point of the computation the file at the key's path holds at most `max_size`
bytes (the check runs before each chunk is persisted), and an error-free
stream carrying `max_size + 1` total bytes always aborts with
`PayloadTooLarge(max_size)` and removes the partial file. The first conjunct
quantifies over every prefix of the stream: the filesystem after processing a
prefix is exactly the intermediate filesystem of the full run. -/
theorem write_stream_cap_is_hard_ceiling (stor : FileStorage) (fs : Fs)
    (key : String) (stream : List StreamItem) (max_size : Nat) :
    (∀ pre suf : List StreamItem, stream = pre ++ suf →
      ∀ content, (stor.write_stream fs key pre max_size).2 (stor.get_object_path key)
          = some content →
        content.length ≤ max_size)
    ∧ (allOk stream → streamLen stream = max_size + 1 →
        (stor.write_stream fs key stream max_size).1
            = Except.error (AppError.PayloadTooLarge max_size)
          ∧ (stor.write_stream fs key stream max_size).2
              (stor.get_object_path key) = none) := by
  constructor
  · intro pre _ _ content hsome
    exact writeStreamGo_size_bound _ _ pre [] [] 0 _ (Fs.write_self _ _ _) rfl
      (Nat.zero_le _) content hsome
  · intro hok hlen
    exact writeStreamGo_overflow (stor.get_object_path key) max_size stream [] 0 _
      hok (by omega) (Nat.zero_le _)

/-- C1 witness: a two-byte chunk against a one-byte cap is rejected with
`PayloadTooLarge 1` and leaves no file. -/
theorem write_stream_cap_witness :
    (stor0.write_stream Fs.empty "k" [StreamItem.ok [7, 7]] 1).1
        = Except.error (AppError.PayloadTooLarge 1)
    ∧ (stor0.write_stream Fs.empty "k" [StreamItem.ok [7, 7]] 1).2
        (stor0.get_object_path "k") = none := by
  refine (write_stream_cap_is_hard_ceiling stor0 Fs.empty "k"
      [StreamItem.ok [7, 7]] 1).2 ?_ ?_
  · intro it h
    rw [List.mem_singleton] at h
    exact ⟨[7, 7], h⟩
  · rfl

/-! ## C9 -/

/-- C9: if the catalog insert fails after `write_stream` completed
successfully, the fully written blob remains at the key's hash-derived path
while the catalog is unchanged — no cleanup runs after a catalog failure, so
the blob is orphaned. -/
theorem put_object_catalog_failure_orphans_blob (st : AppState) (key : String)
    (cth : Option String) (stream : List StreamItem) (newId : String) (now : Nat)
    (hok : allOk stream)
    (hfit : streamLen stream ≤ st.max_upload_size * 1024 * 1024) :
    (put_object st key cth stream newId now false).1
        = Except.error (AppError.Database "insert failed")
    ∧ (put_object st key cth stream newId now false).2.db = st.db
    ∧ (put_object st key cth stream newId now false).2.fs
        (st.storage.get_object_path key) = some (streamBytes stream) := by
  rw [put_object_write_ok st key cth stream newId now false
        (sha256hex (streamBytes stream)) (streamLen stream) _
        (write_stream_success st.storage st.fs key stream _ hok hfit)]
  exact ⟨rfl, rfl, Fs.write_self _ _ _⟩

/-- C9 witness: concrete three-byte upload with a failing catalog insert. -/
theorem put_object_catalog_failure_witness :
    (put_object stPrev "k" none [StreamItem.ok []] "id9" 3 false).1
        = Except.error (AppError.Database "insert failed")
    ∧ (put_object stPrev "k" none [StreamItem.ok []] "id9" 3 false).2.db
        = stPrev.db
    ∧ (put_object stPrev "k" none [StreamItem.ok []] "id9" 3 false).2.fs
        (stPrev.storage.get_object_path "k") = some [] := by
  have h := put_object_catalog_failure_orphans_blob stPrev "k" none
    [StreamItem.ok []] "id9" 3 ?_ ?_
  · exact ⟨h.1, h.2.1, h.2.2⟩
  · intro it hmem
    rw [List.mem_singleton] at hmem
    exact ⟨[], hmem⟩
  · exact Nat.zero_le _

/-! ## C10 -/

/-- C10: a Put whose body stream yields no chunks succeeds: `write_stream`
returns size 0 with the hex SHA-256 of the empty byte string as etag
(`e3b0c4...55`), an empty blob file is created at the key's path, and a
size-0 record is upserted and returned. -/
theorem put_object_empty_stream (st : AppState) (key : String)
    (cth : Option String) (newId : String) (now : Nat) :
    (put_object st key cth [] newId now true).1
        = Except.ok { id := newId, key := key, size := 0,
                      content_type := cth.getD "application/octet-stream",
                      etag := sha256hex [], created_at := now }
    ∧ sha256hex []
        = "e3b0c44298fc1c149afbf4c8996fb92427ae41e4649b934ca495991b7852b855"
    ∧ (put_object st key cth [] newId now true).2.fs
        (st.storage.get_object_path key) = some []
    ∧ (put_object st key cth [] newId now true).2.db
        = dbInsert st.db { id := newId, key := key, size := 0,
                           content_type := cth.getD "application/octet-stream",
                           etag := sha256hex [], created_at := now } := by
  rw [put_object_write_ok st key cth [] newId now true (sha256hex []) 0 _
        (write_stream_success st.storage st.fs key [] _ (fun it h => absurd h (by simp))
          (Nat.zero_le _))]
  exact ⟨rfl, by decide, Fs.write_self _ _ _, rfl⟩


/-! ## C2 -/

/-- C2 fixtures continued: `stRowOnly` has a catalog row for "k" but no blob;
`stFull` has both; `rowK` is the shared record. -/
def rowK : ObjectMetadata :=
  { id := "1", key := "k", size := 0, content_type := "text/plain",
    etag := "aa", created_at := 0 }

def stRowOnly : AppState :=
  { db := [rowK], fs := Fs.empty, storage := stor0, max_upload_size := 100 }

def fsK : Fs := Fs.write Fs.empty (stor0.get_object_path "k") [9]

def stFull : AppState :=
  { db := [rowK], fs := fsK, storage := stor0, max_upload_size := 100 }

/-- `delete_object` when the blob file is absent: the NotFound from
`FileStorage::delete` propagates via `?` and nothing is touched. -/
theorem delete_object_blob_missing (st : AppState) (key : String)
    (h : st.fs (st.storage.get_object_path key) = none) :
    delete_object st key = (Except.error (AppError.NotFound key), st) := by
  unfold delete_object FileStorage.delete
  simp only []
  rw [h]

theorem delete_object_blob_present (st : AppState) (key : String) (data : List Nat)
    (h : st.fs (st.storage.get_object_path key) = some data) :
    delete_object st key
      = (if !(st.db.any fun r => r.key == key) then
           (Except.error (AppError.NotFound key),
            { st with fs := st.fs.remove (st.storage.get_object_path key),
                      db := st.db.filter fun r => !(r.key == key) })
         else
           (Except.ok (),
            { st with fs := st.fs.remove (st.storage.get_object_path key),
                      db := st.db.filter fun r => !(r.key == key) })) := by
  unfold delete_object FileStorage.delete dbDelete
  simp only []
  rw [h]

/-- C2 counterexample: key "k" holds a stored object (record `prevRec`, blob
bytes `[42]`); a Put whose stream exceeds the cap (the fixture's cap is 0
bytes) returns PayloadTooLarge and leaves the catalog record, but destroys
the previous blob: the file at the key's path is gone afterwards — refuting
"the previously stored blob bytes ... remain exactly as they were". -/
theorem put_failed_overwrite_destroys_previous_blob :
    fsPrev (stor0.get_object_path "k") = some [42]
    ∧ (put_object stPrev "k" none [StreamItem.ok [1]] "new" 1 true).1
        = Except.error (AppError.PayloadTooLarge 0)
    ∧ (put_object stPrev "k" none [StreamItem.ok [1]] "new" 1 true).2.db = [prevRec]
    ∧ (put_object stPrev "k" none [StreamItem.ok [1]] "new" 1 true).2.fs
        (stor0.get_object_path "k") = none := by
  refine ⟨?_, ?_, ?_, ?_⟩ <;> decide

/-- C2 (amended): a Put whose stream write fails surfaces the error as-is and
performs no catalog mutation — the previous catalog record survives — but the
previous blob does not: `File::create` truncates it, and on size-cap rejection
the file at the key's path is removed entirely. -/
theorem put_object_write_failure_frame (st : AppState) (key : String)
    (cth : Option String) (stream : List StreamItem) (newId : String) (now : Nat)
    (dbOk : Bool) (e : AppError)
    (h : (st.storage.write_stream st.fs key stream
            (st.max_upload_size * 1024 * 1024)).1 = Except.error e) :
    (put_object st key cth stream newId now dbOk).1 = Except.error e
    ∧ (put_object st key cth stream newId now dbOk).2.db = st.db
    ∧ (∀ lim, e = AppError.PayloadTooLarge lim →
        (put_object st key cth stream newId now dbOk).2.fs
          (st.storage.get_object_path key) = none) := by
  have hpair : st.storage.write_stream st.fs key stream (st.max_upload_size * 1024 * 1024)
      = (Except.error e,
         (st.storage.write_stream st.fs key stream (st.max_upload_size * 1024 * 1024)).2) := by
    rw [← h]
  rw [put_object_write_err st key cth stream newId now dbOk e _ hpair]
  refine ⟨rfl, rfl, ?_⟩
  intro lim he
  subst he
  exact write_stream_payload_removed st.storage st.fs key stream _ lim h

/-- C2 witness: the amended theorem applied to the concrete overwrite. -/
theorem put_object_write_failure_frame_witness :
    (put_object stPrev "k" none [StreamItem.ok [9]] "w2" 2 true).1
        = Except.error (AppError.PayloadTooLarge 0)
    ∧ (put_object stPrev "k" none [StreamItem.ok [9]] "w2" 2 true).2.db = stPrev.db
    ∧ (put_object stPrev "k" none [StreamItem.ok [9]] "w2" 2 true).2.fs
        (stPrev.storage.get_object_path "k") = none := by
  have h := put_object_write_failure_frame stPrev "k" none [StreamItem.ok [9]] "w2" 2 true
    (AppError.PayloadTooLarge 0) (by decide)
  exact ⟨h.1, h.2.1, h.2.2 0 rfl⟩

/-! ## C3 -/

/-- C3 counterexample: the catalog row for "k" exists but the blob is absent;
single-key delete returns NotFound (the blob-step NotFound is NOT ignored)
and the catalog row is NOT removed — refuting "deleting a key whose catalog
row exists but whose blob file is missing succeeds and removes the row". -/
theorem delete_object_blob_notfound_propagates :
    (delete_object stRowOnly "k").1 = Except.error (AppError.NotFound "k")
    ∧ (delete_object stRowOnly "k").2.db = [rowK] := by
  refine ⟨?_, ?_⟩ <;> decide

/-- C3 (amended): single-key delete deletes the blob first and propagates a
blob NotFound (leaving both stores untouched); when the blob delete succeeds,
the catalog row is removed and the operation reports NotFound iff the row was
absent. -/
theorem delete_object_semantics (st : AppState) (key : String) :
    (st.fs (st.storage.get_object_path key) = none →
      delete_object st key = (Except.error (AppError.NotFound key), st))
    ∧ (∀ data, st.fs (st.storage.get_object_path key) = some data →
        (((delete_object st key).1 = Except.ok ())
            ↔ st.db.any (fun r => r.key == key) = true)
        ∧ (st.db.any (fun r => r.key == key) = false →
            (delete_object st key).1 = Except.error (AppError.NotFound key))
        ∧ (delete_object st key).2.fs (st.storage.get_object_path key) = none
        ∧ (delete_object st key).2.db = st.db.filter fun r => !(r.key == key)) := by
  refine ⟨delete_object_blob_missing st key, ?_⟩
  intro data h
  rw [delete_object_blob_present st key data h]
  by_cases hany : st.db.any (fun r => r.key == key) = true
  · rw [if_neg (by simp [hany])]
    refine ⟨by simp [hany], ?_, Fs.remove_self _ _, rfl⟩
    intro hfalse
    rw [hany] at hfalse
    cases hfalse
  · rw [if_pos (by simp [Bool.not_eq_true] at hany ⊢; exact hany)]
    refine ⟨?_, fun _ => rfl, Fs.remove_self _ _, rfl⟩
    constructor
    · intro habs; cases habs
    · intro htrue; exact absurd htrue hany

/-- C3 witness: both branches of the amended theorem at concrete states. -/
theorem delete_object_semantics_witness :
    (delete_object stRowOnly "k").1 = Except.error (AppError.NotFound "k")
    ∧ (delete_object stFull "k").1 = Except.ok ()
    ∧ (delete_object stFull "k").2.db = [] := by
  have h1 := (delete_object_semantics stRowOnly "k").1 (by decide)
  have h2 := (delete_object_semantics stFull "k").2 [9] (by decide)
  refine ⟨by rw [h1], h2.1.mpr (by decide), ?_⟩
  rw [h2.2.2.2]
  decide

/-! ## C5 -/

def oldRec : ObjectMetadata :=
  { id := "old", key := "k", size := 1, content_type := "a", etag := "h1",
    created_at := 5 }

def newRec : ObjectMetadata :=
  { id := "new", key := "k", size := 2, content_type := "b", etag := "h2",
    created_at := 9 }

def stOld : AppState :=
  { db := [oldRec], fs := Fs.empty, storage := stor0, max_upload_size := 1 }

/-- C5 counterexample: after a Put over existing key "k" (old row id "old",
new upload id "new"), the returned record carries id "new" but the stored row
keeps id "old" — the `ON CONFLICT` clause does not update `id`, refuting
"replaces all non-key fields ... carries the freshly generated unique id ...
the record returned to the client equals the row now stored". -/
theorem put_over_existing_key_id_mismatch :
    (put_object stOld "k" (some "b") [StreamItem.ok [3]] "new" 9 true).1
        = Except.ok { id := "new", key := "k", size := 1, content_type := "b",
                      etag := sha256hex [3], created_at := 9 }
    ∧ dbGet (put_object stOld "k" (some "b") [StreamItem.ok [3]] "new" 9 true).2.db "k"
        = some { id := "old", key := "k", size := 1, content_type := "b",
                 etag := sha256hex [3], created_at := 9 }
    ∧ ("old" : String) ≠ "new" := by
  refine ⟨?_, ?_, ?_⟩ <;> decide

/-- `find?` over a key-preserving map. -/
theorem find?_map_keylike (k : String) (f : ObjectMetadata → ObjectMetadata)
    (hkey : ∀ r, (f r).key = r.key) :
    ∀ (db : Db) (r0 : ObjectMetadata),
      db.find? (fun r => r.key == k) = some r0 →
      (db.map f).find? (fun r => r.key == k) = some (f r0) := by
  intro db
  induction db with
  | nil => intro r0 h; cases h
  | cons r rest ih =>
    intro r0 h
    rw [List.map_cons]
    by_cases hp : ((r.key == k) = true)
    · have hp2 : ((f r).key == k) = true := by rw [hkey]; exact hp
      rw [show List.find? (fun x : ObjectMetadata => x.key == k) (r :: rest) = some r from
            List.find?_cons_of_pos _ hp] at h
      cases h
      exact show List.find? (fun x : ObjectMetadata => x.key == k) (f r :: List.map f rest)
          = some (f r) from List.find?_cons_of_pos _ hp2
    · have hp2 : ¬ (((f r).key == k) = true) := by rw [hkey]; exact hp
      rw [show List.find? (fun x : ObjectMetadata => x.key == k) (r :: rest)
            = List.find? (fun x : ObjectMetadata => x.key == k) rest from
            List.find?_cons_of_neg _ hp] at h
      rw [show List.find? (fun x : ObjectMetadata => x.key == k) (f r :: List.map f rest)
            = List.find? (fun x : ObjectMetadata => x.key == k) (List.map f rest) from
            List.find?_cons_of_neg _ hp2]
      exact ih r0 h

/-- C5 (amended): on an existing key, upsert replaces the non-key fields
except `id`: the stored row keeps the previous row's id while taking the new
size, content type, etag and creation time; consequently the record returned
by a Put differs from the stored row whenever the ids differ. -/
theorem dbInsert_replaces_fields_keeps_id (db : Db) (m r0 : ObjectMetadata)
    (h : dbGet db m.key = some r0) :
    dbGet (dbInsert db m) m.key
      = some { id := r0.id, key := r0.key, size := m.size,
               content_type := m.content_type, etag := m.etag,
               created_at := m.created_at } := by
  have h2 : db.find? (fun r => r.key == m.key) = some r0 := h
  have hmem : r0 ∈ db := List.mem_of_find?_eq_some h2
  have hpred : (r0.key == m.key) = true := by simpa using List.find?_some h2
  have hany : (db.any fun r => r.key == m.key) = true :=
    List.any_eq_true.mpr ⟨r0, hmem, hpred⟩
  unfold dbInsert
  rw [if_pos hany]
  have hres := find?_map_keylike m.key
    (fun r => if r.key == m.key then
        { r with size := m.size, content_type := m.content_type, etag := m.etag,
                 created_at := m.created_at }
      else r)
    (fun r => by by_cases hc : (r.key == m.key) = true <;> simp [hc])
    db r0 h
  simp only [] at hres
  rw [if_pos hpred] at hres
  exact hres

/-- C5 witness. -/
theorem dbInsert_replaces_fields_keeps_id_witness :
    dbGet (dbInsert [oldRec] newRec) newRec.key
      = some { id := oldRec.id, key := oldRec.key, size := newRec.size,
               content_type := newRec.content_type, etag := newRec.etag,
               created_at := newRec.created_at } :=
  dbInsert_replaces_fields_keeps_id [oldRec] newRec oldRec (by decide)


/-! ## C8 -/

/-- C8: Get and Head consult the catalog first; when the record is absent the
result is NotFound for every filesystem state (the blob store is never
consulted, even when an orphaned blob exists at the key's path — `st` and in
particular `st.fs` are arbitrary); when the record is present, Head returns
exactly the record, and a Get whose blob is present carries the record's
size (as the content-length string) and etag in the response headers while
streaming the blob bytes. -/
theorem get_head_catalog_authoritative (st : AppState) (key : String) :
    (dbGet st.db key = none →
      get_object st key = Except.error (AppError.NotFound key)
      ∧ get_object_metadata st key = Except.error (AppError.NotFound key))
    ∧ (∀ m, dbGet st.db key = some m →
        get_object_metadata st key = Except.ok m
        ∧ (∀ data, st.fs (st.storage.get_object_path key) = some data →
            get_object st key
              = Except.ok { content_type := m.content_type, etag := m.etag,
                            content_length := toString m.size, body := data })) := by
  constructor
  · intro h
    unfold get_object get_object_metadata
    rw [h]
    exact ⟨rfl, rfl⟩
  · intro m hm
    unfold get_object get_object_metadata
    rw [hm]
    refine ⟨rfl, ?_⟩
    intro data hd
    unfold FileStorage.open
    rw [hd]

def fsOrphan : Fs := Fs.write Fs.empty (stor0.get_object_path "o") [7]

def stOrphan : AppState :=
  { db := [], fs := fsOrphan, storage := stor0, max_upload_size := 100 }

/-- C8 witness: an orphaned blob without a record still yields NotFound, and
a present record yields the record's headers. -/
theorem get_head_catalog_authoritative_witness :
    get_object stOrphan "o" = Except.error (AppError.NotFound "o")
    ∧ get_object_metadata stOrphan "o" = Except.error (AppError.NotFound "o")
    ∧ get_object stFull "k" = Except.ok { content_type := "text/plain", etag := "aa",
                                          content_length := "0", body := [9] } := by
  have h1 := (get_head_catalog_authoritative stOrphan "o").1 (by decide)
  have h2 := (get_head_catalog_authoritative stFull "k").2 rowK (by decide)
  have h3 := h2.2 [9] (by decide)
  refine ⟨h1.1, h1.2, ?_⟩
  rw [h3]
  decide

/-! ## SQLite LIKE lemmas -/

/-- A bare `%` pattern matches every string (with enough fuel). -/
theorem likeGo_pct_all : ∀ (s : List Char) (fuel : Nat), s.length + 2 ≤ fuel →
    likeMatchGo fuel ['%'] s = true := by
  intro s
  induction s with
  | nil =>
    intro fuel hf
    match fuel, hf with
    | f + 1, _ =>
      unfold likeMatchGo
      rw [if_pos rfl]
      match f, (by omega : 1 ≤ f) with
      | f1 + 1, _ =>
        unfold likeMatchGo
        simp
  | cons c cs ih =>
    intro fuel hf
    match fuel, hf with
    | f + 1, hfb =>
      unfold likeMatchGo
      rw [if_pos rfl]
      have := ih f (by simp only [List.length_cons] at hfb; omega)
      simp [this]

theorem likeGo_isPrefixOf : ∀ (p s : List Char), p.isPrefixOf s = true →
    ∀ fuel, p.length + s.length + 2 ≤ fuel →
    likeMatchGo fuel (p ++ ['%']) s = true := by
  intro p
  induction p with
  | nil =>
    intro s _ fuel hf
    rw [List.nil_append]
    exact likeGo_pct_all s fuel (by simp at hf ⊢; omega)
  | cons a p' ih =>
    intro s hpre fuel hf
    cases s with
    | nil => simp [List.isPrefixOf] at hpre
    | cons b s' =>
      simp only [List.isPrefixOf, Bool.and_eq_true, beq_iff_eq] at hpre
      obtain ⟨hab, hp'⟩ := hpre
      subst hab
      match fuel, hf with
      | f + 1, hfb =>
        rw [List.cons_append]
        unfold likeMatchGo
        by_cases ha : a = '%'
        · rw [if_pos ha]
          subst ha
          have hf2 : p'.length + s'.length + 3 ≤ f := by
            simp only [List.length_cons] at hfb
            omega
          have hinner : likeMatchGo f ('%' :: (p' ++ ['%'])) s' = true := by
            match f, hf2 with
            | f1 + 1, _ =>
              unfold likeMatchGo
              rw [if_pos rfl]
              have := ih s' hp' f1 (by omega)
              simp [this]
          simp [hinner]
        · rw [if_neg ha]
          show (if a = '_' then likeMatchGo f (p' ++ ['%']) s'
                else asciiLower a == asciiLower a && likeMatchGo f (p' ++ ['%']) s') = true
          have hf2 : p'.length + s'.length + 2 ≤ f := by
            simp only [List.length_cons] at hfb
            omega
          by_cases hu : a = '_'
          · rw [if_pos hu]
            exact ih s' hp' f hf2
          · rw [if_neg hu]
            have := ih s' hp' f hf2
            simp [this]

theorem isPrefixOf_sqlLike (p s : String) (h : p.data.isPrefixOf s.data = true) :
    sqlLike (p ++ "%") s = true := by
  unfold sqlLike
  show likeMatchGo ((p ++ "%").length + s.length + 1) (p.data ++ ['%']) s.data = true
  have hlen : (p ++ "%").length + s.length + 1 = p.data.length + s.data.length + 2 := by
    show (p.data ++ ['%']).length + s.data.length + 1 = _
    simp
    omega
  rw [hlen]
  exact likeGo_isPrefixOf p.data s.data h _ (le_refl _)

/-! ## C7 -/

def rAB : ObjectMetadata :=
  { id := "7", key := "ab", size := 0, content_type := "t", etag := "e",
    created_at := 0 }

/-- C7 counterexample: `list` with prefix "a_" returns the record with key
"ab" although "ab" does not start with "a_" — the SQL `LIKE` treats the
underscore as a single-character wildcard, refuting "exactly the records
whose key starts with the prefix". -/
theorem dbList_like_wildcard_cex :
    dbList [rAB] (some "a_") none = [rAB]
    ∧ "a_".data.isPrefixOf "ab".data = false := by
  refine ⟨?_, ?_⟩ <;> decide

/-- The WHERE clause of `MetadataStore::list` as a predicate. -/
def listWherePred (pfxOpt : Option String) (r : ObjectMetadata) : Bool :=
  match pfxOpt with
  | some p => sqlLike (p ++ "%") r.key
  | none => true

/-- Behaviour of `ORDER BY key LIMIT lim` over a row multiset. -/
theorem sortTake_spec (rows : Db) (lim : Int) :
    List.Sorted rowLe (if lim < 0 then rows.insertionSort rowLe
                       else (rows.insertionSort rowLe).take lim.toNat)
    ∧ (∀ r ∈ (if lim < 0 then rows.insertionSort rowLe
              else (rows.insertionSort rowLe).take lim.toNat), r ∈ rows)
    ∧ (0 ≤ lim → (if lim < 0 then rows.insertionSort rowLe
                  else (rows.insertionSort rowLe).take lim.toNat).length ≤ lim.toNat)
    ∧ ((rows.length ≤ lim.toNat ∨ lim < 0) →
        ∀ r ∈ rows, r ∈ (if lim < 0 then rows.insertionSort rowLe
                         else (rows.insertionSort rowLe).take lim.toNat)) := by
  have hperm := List.perm_insertionSort rowLe rows
  by_cases hneg : lim < 0
  · rw [if_pos hneg]
    refine ⟨List.sorted_insertionSort rowLe rows, ?_, ?_, ?_⟩
    · intro r hr; exact hperm.mem_iff.mp hr
    · intro h0; exact absurd hneg (not_lt.mpr h0)
    · intro _ r hr; exact hperm.mem_iff.mpr hr
  · rw [if_neg hneg]
    refine ⟨?_, ?_, ?_, ?_⟩
    · exact (List.sorted_insertionSort rowLe rows).sublist (List.take_sublist _ _)
    · intro r hr; exact hperm.mem_iff.mp (List.mem_of_mem_take hr)
    · intro _; rw [List.length_take]; omega
    · intro hfit r hr
      have hlen : (rows.insertionSort rowLe).length = rows.length := hperm.length_eq
      have hall : (rows.insertionSort rowLe).take lim.toNat = rows.insertionSort rowLe := by
        apply List.take_of_length_le
        rw [hlen]
        rcases hfit with h | h
        · exact h
        · exact absurd h hneg
      rw [hall]
      exact hperm.mem_iff.mpr hr

/-- C7 (amended): `list` returns records whose key matches the unescaped
SQLite LIKE pattern `prefix ++ "%"` (so `%`/`_` inside the prefix act as
wildcards and ASCII letters compare case-insensitively) — not plain
starts-with — ordered lexicographically by key, capped at the limit when it
is nonnegative (default 1000; a negative SQLite LIMIT disables the cap), and
complete (every matching record is returned) when the match count fits under
the cap. -/
theorem dbList_semantics (db : Db) (pfxOpt : Option String) (limitOpt : Option Int) :
    List.Sorted rowLe (dbList db pfxOpt limitOpt)
    ∧ (∀ r ∈ dbList db pfxOpt limitOpt, r ∈ db ∧ listWherePred pfxOpt r = true)
    ∧ (limitOpt = none → (dbList db pfxOpt limitOpt).length ≤ 1000)
    ∧ (∀ l : Int, limitOpt = some l → 0 ≤ l →
        ((dbList db pfxOpt limitOpt).length : Int) ≤ l)
    ∧ (((db.filter (listWherePred pfxOpt)).length ≤ (limitOpt.getD 1000).toNat
          ∨ limitOpt.getD 1000 < 0) →
        ∀ r ∈ db, listWherePred pfxOpt r = true → r ∈ dbList db pfxOpt limitOpt) := by
  have hrows : dbList db pfxOpt limitOpt
      = (if limitOpt.getD 1000 < 0 then (db.filter (listWherePred pfxOpt)).insertionSort rowLe
         else ((db.filter (listWherePred pfxOpt)).insertionSort rowLe).take
            (limitOpt.getD 1000).toNat) := by
    unfold dbList
    cases pfxOpt with
    | none =>
      have hft : List.filter (listWherePred none) db = db :=
        List.filter_eq_self.mpr fun a _ => rfl
      simp only [hft]
    | some p => rfl
  have h := sortTake_spec (db.filter (listWherePred pfxOpt)) (limitOpt.getD 1000)
  rw [hrows]
  refine ⟨h.1, ?_, ?_, ?_, ?_⟩
  · intro r hr
    have := h.2.1 r hr
    exact List.mem_filter.mp this
  · intro hnone
    subst hnone
    have := h.2.2.1 (by norm_num)
    simp only [Option.getD_none] at this
    exact this
  · intro l hl hl0
    subst hl
    have := h.2.2.1 (by simp; omega)
    simp only [Option.getD_some] at this ⊢
    omega
  · intro hfit r hr hpred
    have hmemf : r ∈ db.filter (listWherePred pfxOpt) := List.mem_filter.mpr ⟨hr, hpred⟩
    exact h.2.2.2 hfit r hmemf

/-- C7 witness. -/
theorem dbList_semantics_witness :
    List.Sorted rowLe (dbList [rAB, rowK] (some "a") none)
    ∧ dbList [rAB, rowK] (some "a") none = [rAB]
    ∧ (dbList [rAB, rowK] (some "a") (some 0)).length = 0 := by
  have h := dbList_semantics [rAB, rowK] (some "a") none
  refine ⟨h.1, by decide, by decide⟩

/-- The folder name synthesized by the listing loop for a record, if any. -/
def folderNameOf (pfx d : String) (r : ObjectMetadata) : Option String :=
  match stripPfx pfx r.key with
  | some rest =>
    match strFind rest d with
    | some idx => some (pfx ++ String.mk (rest.data.take idx) ++ d)
    | none => none
  | none => none

/-- Whether the listing loop classifies a record as a direct (leaf) object. -/
def isLeafUnder (pfx d : String) (r : ObjectMetadata) : Bool :=
  match stripPfx pfx r.key with
  | some rest => (strFind rest d).isNone
  | none => false

theorem listFold_spec (pfx d : String) :
    ∀ (objects : List ObjectMetadata) (a : List String) (b : List ObjectMetadata),
      objects.foldl (listStep pfx d) (a, b)
        = (a ++ objects.filterMap (folderNameOf pfx d),
           b ++ objects.filter (isLeafUnder pfx d)) := by
  intro objects
  induction objects with
  | nil => intro a b; simp
  | cons o rest ih =>
    intro a b
    rw [List.foldl_cons]
    cases hstrip : stripPfx pfx o.key with
    | none =>
      have hstep : listStep pfx d (a, b) o = (a, b) := by
        simp [listStep, hstrip]
      have hfn : folderNameOf pfx d o = none := by
        simp [folderNameOf, hstrip]
      have hlf : isLeafUnder pfx d o = false := by
        simp [isLeafUnder, hstrip]
      rw [hstep, ih, List.filterMap_cons_none hfn,
          List.filter_cons_of_neg (by simp [hlf])]
    | some rest0 =>
      cases hfind : strFind rest0 d with
      | none =>
        have hstep : listStep pfx d (a, b) o = (a, b ++ [o]) := by
          simp [listStep, hstrip, hfind]
        have hfn : folderNameOf pfx d o = none := by
          simp [folderNameOf, hstrip, hfind]
        have hlf : isLeafUnder pfx d o = true := by
          simp [isLeafUnder, hstrip, hfind]
        rw [hstep, ih, List.filterMap_cons_none hfn, List.filter_cons_of_pos hlf]
        simp
      | some idx =>
        have hstep : listStep pfx d (a, b) o
            = (a ++ [pfx ++ String.mk (rest0.data.take idx) ++ d], b) := by
          simp [listStep, hstrip, hfind]
        have hfn : folderNameOf pfx d o
            = some (pfx ++ String.mk (rest0.data.take idx) ++ d) := by
          simp [folderNameOf, hstrip, hfind]
        have hlf : isLeafUnder pfx d o = false := by
          simp [isLeafUnder, hstrip, hfind]
        rw [hstep, ih, List.filterMap_cons_some hfn,
            List.filter_cons_of_neg (by simp [hlf])]
        simp

theorem sortedDedup_mem (l : List String) (x : String) :
    x ∈ sortedDedup l ↔ x ∈ l := by
  unfold sortedDedup
  rw [(List.perm_insertionSort _ _).mem_iff, List.mem_dedup]

theorem sortedDedup_sorted_nodup (l : List String) :
    List.Sorted strLe (sortedDedup l) ∧ (sortedDedup l).Nodup := by
  unfold sortedDedup
  exact ⟨List.sorted_insertionSort _ _,
         ((List.perm_insertionSort _ _).nodup_iff).mpr (List.nodup_dedup l)⟩

/-! ## C6 -/

/-- C6: when every catalog key starts with the requested prefix and the catalog
fits under the 1000-row enumeration cap, `list_objects` splits the (sorted)
records into direct leaf objects and synthesized folder prefixes: `objects` is
exactly the keys with no delimiter after the prefix, `total` counts them, and
`prefixes` is the sorted deduplicated set of `prefix ++ firstSegment ++
delimiter` folder names, one for each record whose remainder contains the
delimiter. -/
theorem list_objects_folder_emulation (st : AppState) (p : String)
    (delimOpt : Option String)
    (h1 : ∀ r ∈ st.db, p.data.isPrefixOf r.key.data = true)
    (h2 : st.db.length ≤ 1000) :
    (list_objects st (some p) none delimOpt).objects
        = (st.db.insertionSort rowLe).filter (isLeafUnder p (delimOpt.getD "/"))
    ∧ (list_objects st (some p) none delimOpt).total
        = (list_objects st (some p) none delimOpt).objects.length
    ∧ (∀ x, x ∈ (list_objects st (some p) none delimOpt).prefixes ↔
        ∃ r ∈ st.db, folderNameOf p (delimOpt.getD "/") r = some x)
    ∧ List.Sorted strLe (list_objects st (some p) none delimOpt).prefixes
    ∧ (list_objects st (some p) none delimOpt).prefixes.Nodup := by
  have hcand : dbList st.db (some p) none = st.db.insertionSort rowLe := by
    have hf : List.filter (fun r : ObjectMetadata => sqlLike (p ++ "%") r.key) st.db
        = st.db :=
      List.filter_eq_self.mpr fun r hr => isPrefixOf_sqlLike p r.key (h1 r hr)
    have hshape : dbList st.db (some p) none
        = ((st.db.filter fun r : ObjectMetadata => sqlLike (p ++ "%") r.key).insertionSort
            rowLe).take ((1000 : Int)).toNat := rfl
    rw [hshape, hf]
    apply List.take_of_length_le
    rw [(List.perm_insertionSort rowLe st.db).length_eq]
    simpa using h2
  have hresp : list_objects st (some p) none delimOpt
      = { objects := (st.db.insertionSort rowLe).filter (isLeafUnder p (delimOpt.getD "/")),
          total := ((st.db.insertionSort rowLe).filter (isLeafUnder p (delimOpt.getD "/"))).length,
          prefixes := sortedDedup ((st.db.insertionSort rowLe).filterMap
            (folderNameOf p (delimOpt.getD "/"))) } := by
    unfold list_objects
    rw [hcand]
    simp only [Option.getD_some]
    rw [listFold_spec p (delimOpt.getD "/") (st.db.insertionSort rowLe) [] []]
    simp
  rw [hresp]
  refine ⟨rfl, rfl, ?_, (sortedDedup_sorted_nodup _).1, (sortedDedup_sorted_nodup _).2⟩
  intro x
  rw [sortedDedup_mem, List.mem_filterMap]
  constructor
  · rintro ⟨r, hr, hfn⟩
    exact ⟨r, (List.perm_insertionSort rowLe st.db).mem_iff.mp hr, hfn⟩
  · rintro ⟨r, hr, hfn⟩
    exact ⟨r, (List.perm_insertionSort rowLe st.db).mem_iff.mpr hr, hfn⟩

def rA1 : ObjectMetadata :=
  { id := "1", key := "a/b.txt", size := 1, content_type := "t", etag := "e1",
    created_at := 0 }

def rA2 : ObjectMetadata :=
  { id := "2", key := "a/c/d.txt", size := 2, content_type := "t", etag := "e2",
    created_at := 0 }

def rA3 : ObjectMetadata :=
  { id := "3", key := "a/e.txt", size := 3, content_type := "t", etag := "e3",
    created_at := 0 }

def stList : AppState :=
  { db := [rA2, rA3, rA1], fs := Fs.empty, storage := stor0, max_upload_size := 100 }

/-- C6 witness: listing prefix "a/" over three records yields the two leaf
objects sorted by key, total 2, and the single folder prefix "a/c/". -/
theorem list_objects_folder_emulation_witness :
    (list_objects stList (some "a/") none none).objects = [rA1, rA3]
    ∧ (list_objects stList (some "a/") none none).total = 2
    ∧ (list_objects stList (some "a/") none none).prefixes = ["a/c/"] := by
  have h := list_objects_folder_emulation stList "a/" none (by decide) (by decide)
  refine ⟨?_, ?_, ?_⟩
  · rw [h.1]
    decide
  · rw [h.2.1, h.1]
    decide
  · decide

def docRec : ObjectMetadata :=
  { id := "d1", key := "docs/a", size := 1, content_type := "t", etag := "e1",
    created_at := 0 }

def sibRec : ObjectMetadata :=
  { id := "d2", key := "docs2/file", size := 1, content_type := "t", etag := "e2",
    created_at := 0 }

def stDocs : AppState :=
  { db := [docRec], fs := Fs.empty, storage := stor0, max_upload_size := 100 }

def fsDocs : Fs :=
  (Fs.empty.write (stor0.get_object_path "docs/a") [1]).write
    (stor0.get_object_path "docs2/file") [2]

def stDocs2 : AppState :=
  { db := [docRec, sibRec], fs := fsDocs, storage := stor0, max_upload_size := 100 }

/-! ## C4 -/

/-- C4 counterexample: the catalog holds a record for "docs/a" but its blob
file is missing; `delete_folder` on "docs" propagates the blob store's
NotFound instead of treating the missing blob as a non-error, and the catalog
row survives — refuting "treating a missing blob for an enumerated record as
a non-error". -/
theorem delete_folder_blob_notfound_propagates :
    (delete_folder stDocs "docs").1 = Except.error (AppError.NotFound "docs/a")
    ∧ (delete_folder stDocs "docs").2.db = [docRec] := by
  decide

/-- Characterization of `delete_folder` when the blob-deletion loop succeeds:
the matching rows are bulk-deleted and their count is returned. -/
theorem delete_folder_loop_ok (st : AppState) (p : String) (fs2 : Fs)
    (h : deleteBlobsLoop st.storage (dbList st.db (some (normSlash p)) none) st.fs
          = (Except.ok (), fs2)) :
    delete_folder st p
      = (Except.ok (dbDeleteByPfx st.db (normSlash p)).1,
         { st with fs := fs2, db := (dbDeleteByPfx st.db (normSlash p)).2 }) := by
  unfold delete_folder
  simp only []
  rw [h]

/-- When every enumerated record's blob is present and no two records share a
blob path, the deletion loop succeeds, removes exactly the enumerated blobs,
and leaves every other path untouched. -/
theorem deleteBlobsLoop_all_present (storage : FileStorage) :
    ∀ (l : List ObjectMetadata) (fs : Fs),
      (∀ r ∈ l, fs (storage.get_object_path r.key) ≠ none) →
      l.Pairwise (fun a b =>
        storage.get_object_path a.key ≠ storage.get_object_path b.key) →
      (deleteBlobsLoop storage l fs).1 = Except.ok ()
      ∧ (∀ r ∈ l,
          (deleteBlobsLoop storage l fs).2 (storage.get_object_path r.key) = none)
      ∧ (∀ q, (∀ r ∈ l, storage.get_object_path r.key ≠ q) →
          (deleteBlobsLoop storage l fs).2 q = fs q) := by
  intro l
  induction l with
  | nil =>
    intro fs _ _
    exact ⟨rfl, fun r hr => absurd hr (by simp), fun q _ => rfl⟩
  | cons o rest ih =>
    intro fs h3 h4
    obtain ⟨v, hv⟩ : ∃ v, fs (storage.get_object_path o.key) = some v := by
      cases hfs : fs (storage.get_object_path o.key) with
      | none => exact absurd hfs (h3 o (by simp))
      | some v => exact ⟨v, rfl⟩
    have hd : storage.delete fs o.key
        = (Except.ok (), fs.remove (storage.get_object_path o.key)) := by
      unfold FileStorage.delete
      rw [hv]
    have hstep : deleteBlobsLoop storage (o :: rest) fs
        = deleteBlobsLoop storage rest (fs.remove (storage.get_object_path o.key)) := by
      simp only [deleteBlobsLoop, hd]
    have hpw := List.pairwise_cons.mp h4
    have hrm : ∀ q, q ≠ storage.get_object_path o.key →
        fs.remove (storage.get_object_path o.key) q = fs q := by
      intro q hq
      simp [Fs.remove, hq]
    have h3' : ∀ r ∈ rest,
        fs.remove (storage.get_object_path o.key) (storage.get_object_path r.key)
          ≠ none := by
      intro r hr
      rw [hrm _ (Ne.symm (hpw.1 r hr))]
      exact h3 r (by simp [hr])
    have ihres := ih (fs.remove (storage.get_object_path o.key)) h3' hpw.2
    rw [hstep]
    refine ⟨ihres.1, ?_, ?_⟩
    · intro r hr
      rcases List.mem_cons.mp hr with hro | hrr
      · subst hro
        rw [ihres.2.2 _ (fun r' hr' => Ne.symm (hpw.1 r' hr'))]
        exact Fs.remove_self _ _
      · exact ihres.2.1 r hrr
    · intro q hq
      rw [ihres.2.2 q (fun r hr => hq r (by simp [hr]))]
      exact hrm q (Ne.symm (hq o (by simp)))

/-- C4 (amended): folder delete normalizes the prefix by appending '/' if
missing, so "docs" never affects "docs2/file". Provided the LIKE pattern built
from the normalized prefix agrees with plain starts-with on the catalog (no
wildcard bytes in the prefix), the matching rows fit under the 1000-row
enumeration cap of `MetadataStore::list`, every matching record's blob is
present, and no two records share a blob path, the operation succeeds: it
returns the count of matching rows (0 is a valid result), removes exactly the
matching rows from the catalog, removes exactly the matching records' blobs,
and leaves every other path and row untouched. A missing blob is NOT
tolerated: it aborts the loop with NotFound (see the counterexample). -/
theorem delete_folder_semantics (st : AppState) (p : String)
    (h2 : ∀ r ∈ st.db, sqlLike (normSlash p ++ "%") r.key
            = (normSlash p).data.isPrefixOf r.key.data)
    (h1 : (st.db.filter fun r : ObjectMetadata =>
            (normSlash p).data.isPrefixOf r.key.data).length ≤ 1000)
    (h3 : ∀ r ∈ st.db, (normSlash p).data.isPrefixOf r.key.data = true →
            st.fs (st.storage.get_object_path r.key) ≠ none)
    (h4 : st.db.Pairwise (fun a b =>
            st.storage.get_object_path a.key ≠ st.storage.get_object_path b.key)) :
    (delete_folder st p).1
        = Except.ok ((st.db.countP fun r : ObjectMetadata =>
            (normSlash p).data.isPrefixOf r.key.data : Nat) : Int)
    ∧ (delete_folder st p).2.db
        = (st.db.filter fun r : ObjectMetadata =>
            !((normSlash p).data.isPrefixOf r.key.data))
    ∧ (∀ r ∈ st.db, (normSlash p).data.isPrefixOf r.key.data = true →
        (delete_folder st p).2.fs (st.storage.get_object_path r.key) = none)
    ∧ (∀ q, (∀ r ∈ st.db, (normSlash p).data.isPrefixOf r.key.data = true →
          st.storage.get_object_path r.key ≠ q) →
        (delete_folder st p).2.fs q = st.fs q) := by
  have hfilt : (st.db.filter fun r : ObjectMetadata =>
        sqlLike (normSlash p ++ "%") r.key)
      = st.db.filter fun r : ObjectMetadata =>
          (normSlash p).data.isPrefixOf r.key.data :=
    List.filter_congr fun r hr => h2 r hr
  have hobjs : dbList st.db (some (normSlash p)) none
      = (st.db.filter fun r : ObjectMetadata =>
          (normSlash p).data.isPrefixOf r.key.data).insertionSort rowLe := by
    have hshape : dbList st.db (some (normSlash p)) none
        = ((st.db.filter fun r : ObjectMetadata =>
            sqlLike (normSlash p ++ "%") r.key).insertionSort
            rowLe).take ((1000 : Int)).toNat := rfl
    rw [hshape, hfilt]
    apply List.take_of_length_le
    rw [(List.perm_insertionSort rowLe _).length_eq]
    simpa using h1
  have hperm := List.perm_insertionSort rowLe
    (st.db.filter fun r : ObjectMetadata =>
      (normSlash p).data.isPrefixOf r.key.data)
  have hmemobjs : ∀ r, r ∈ dbList st.db (some (normSlash p)) none
      ↔ r ∈ st.db ∧ (normSlash p).data.isPrefixOf r.key.data = true := by
    intro r
    rw [hobjs, hperm.mem_iff, List.mem_filter]
  have h3' : ∀ r ∈ dbList st.db (some (normSlash p)) none,
      st.fs (st.storage.get_object_path r.key) ≠ none := by
    intro r hr
    have := (hmemobjs r).mp hr
    exact h3 r this.1 this.2
  have h4' : (dbList st.db (some (normSlash p)) none).Pairwise (fun a b =>
      st.storage.get_object_path a.key ≠ st.storage.get_object_path b.key) := by
    rw [hobjs]
    exact (hperm.pairwise_iff fun hab => Ne.symm hab).mpr (h4.filter _)
  have hloop := deleteBlobsLoop_all_present st.storage
    (dbList st.db (some (normSlash p)) none) st.fs h3' h4'
  have hpair : deleteBlobsLoop st.storage
        (dbList st.db (some (normSlash p)) none) st.fs
      = (Except.ok (),
         (deleteBlobsLoop st.storage
           (dbList st.db (some (normSlash p)) none) st.fs).2) := by
    rw [← hloop.1]
  rw [delete_folder_loop_ok st p _ hpair]
  have hfiltd : (st.db.filter fun r : ObjectMetadata =>
        decide (sqlLike (normSlash p ++ "%") r.key = true))
      = st.db.filter fun r : ObjectMetadata =>
          (normSlash p).data.isPrefixOf r.key.data :=
    List.filter_congr fun r hr => by
      rw [h2 r hr]
      cases hb : (normSlash p).data.isPrefixOf r.key.data <;> simp [hb]
  have hc : (st.db.countP fun r : ObjectMetadata =>
        decide (sqlLike (normSlash p ++ "%") r.key = true))
      = st.db.countP fun r : ObjectMetadata =>
          (normSlash p).data.isPrefixOf r.key.data := by
    rw [List.countP_eq_length_filter, List.countP_eq_length_filter, hfiltd]
  have hcount : (dbDeleteByPfx st.db (normSlash p)).1
      = ((st.db.countP fun r : ObjectMetadata =>
          (normSlash p).data.isPrefixOf r.key.data : Nat) : Int) := by
    show ((st.db.countP fun r : ObjectMetadata =>
        decide (sqlLike (normSlash p ++ "%") r.key = true) : Nat) : Int) = _
    rw [hc]
  have hdbf : (dbDeleteByPfx st.db (normSlash p)).2
      = st.db.filter fun r : ObjectMetadata =>
          !((normSlash p).data.isPrefixOf r.key.data) := by
    show (st.db.filter fun r : ObjectMetadata =>
        !(sqlLike (normSlash p ++ "%") r.key)) = _
    refine List.filter_congr fun r hr => ?_
    rw [h2 r hr]
  refine ⟨by simp [hcount], by simp [hdbf], ?_, ?_⟩
  · intro r hr hpre
    exact hloop.2.1 r ((hmemobjs r).mpr ⟨hr, hpre⟩)
  · intro q hq
    refine hloop.2.2 q ?_
    intro r hr
    have := (hmemobjs r).mp hr
    exact hq r this.1 this.2

/-- C4 witness: deleting folder "docs" over records "docs/a" and "docs2/file"
(both blobs present) returns count 1, drops only the "docs/a" row, removes
only the "docs/a" blob, and leaves the "docs2/file" row and blob intact. -/
theorem delete_folder_semantics_witness :
    (delete_folder stDocs2 "docs").1 = Except.ok 1
    ∧ (delete_folder stDocs2 "docs").2.db = [sibRec]
    ∧ (delete_folder stDocs2 "docs").2.fs (stor0.get_object_path "docs/a") = none
    ∧ (delete_folder stDocs2 "docs").2.fs (stor0.get_object_path "docs2/file")
        = some [2] := by
  have h := delete_folder_semantics stDocs2 "docs" (by decide) (by decide)
    (by decide) (by decide)
  refine ⟨?_, ?_, ?_, ?_⟩
  · rw [h.1]; decide
  · rw [h.2.1]; decide
  · exact h.2.2.1 docRec (by decide) (by decide)
  · rw [h.2.2.2 (stor0.get_object_path "docs2/file") (by decide)]
    decide

end Lila
